import Mathlib

/-!
# Verification of the PASL core against its specification

Shallow embedding of the reflection-driven binary codec
(utils/serialize.go), the ChangeKey operation (safebox/tx/txchangekey.go),
block assembly (safebox package), and the peer connection handlers
(network/pasl/connection.go), together with proofs settling the frozen
claims about the specification.

Machine integers are modelled as Nat with explicit reductions modulo
powers of two where the Go code truncates; byte streams are List Nat
with every entry below 256.  SHA-256, the elliptic-curve public key
material and other collaborators that live outside the excerpted core
are modelled as explicit parameters of the embedded functions.
-/

namespace Pasl

/-! ## Little-endian primitives (encoding/binary, LittleEndian) -/

/-- The `n` little-endian bytes of `v`, truncating above `2 ^ (8 * n)`
exactly as the Go integer casts `uint8(v)`, `uint16(v)`, ... do. -/
def leBytes : Nat → Nat → List Nat
  | 0, _ => []
  | n + 1, v => (v % 256) :: leBytes n (v / 256)

/-- Value of a little-endian byte list (each byte is taken mod 256,
matching the width of a Go byte). -/
def leVal : List Nat → Nat
  | [] => 0
  | b :: r => b % 256 + 256 * leVal r

/-- Read of an n-byte little-endian unsigned integer.  On a
truncated stream the Go caller ignores the returned error, so the
destination keeps its zero value and the partial bytes are consumed. -/
def readLE (n : Nat) (s : List Nat) : Nat × List Nat :=
  if n ≤ s.length then (leVal (s.take n), s.drop n) else (0, [])

theorem leBytes_length (n v : Nat) : (leBytes n v).length = n := by
  induction n generalizing v with
  | zero => rfl
  | succ k ih => simp [leBytes, ih]

theorem leVal_leBytes (n v : Nat) (h : v < 256 ^ n) :
    leVal (leBytes n v) = v := by
  induction n generalizing v with
  | zero => simp [leBytes, leVal]; omega
  | succ k ih =>
    have hdiv : v / 256 < 256 ^ k := by
      rw [Nat.div_lt_iff_lt_mul (by omega)]
      rw [Nat.pow_succ] at h; omega
    simp [leBytes, leVal, ih (v / 256) hdiv]
    omega

theorem readLE_leBytes (n v : Nat) (rest : List Nat) (h : v < 256 ^ n) :
    readLE n (leBytes n v ++ rest) = (v, rest) := by
  unfold readLE
  have hlen : (leBytes n v).length = n := leBytes_length n v
  rw [if_pos (by simp [hlen])]
  rw [List.take_append_of_le_length (by omega),
      List.drop_append_of_le_length (by omega)]
  rw [List.take_of_length_le (le_of_eq hlen), List.drop_of_length_le (le_of_eq hlen)]
  simp [leVal_leBytes n v h]

/-! ## Wire values and shapes

The reflection walker of `utils.Serialize` / `utils.Deserialize` visits
the declared fields of a struct left to right, flattening nested
structs; unsigned integers are written little-endian at their fixed
width, strings and byte slices get a `uint16` length prefix, and a type
implementing the `Serializable` interface contributes the opaque bytes
of its own custom encoder (`Value.raw`). -/

mutual
inductive Value where
  | u8 (n : Nat)
  | u16 (n : Nat)
  | u32 (n : Nat)
  | u64 (n : Nat)
  | str (s : List Nat)
  | bytes (b : List Nat)
  | raw (b : List Nat)
  | struc (fields : Fields)
deriving DecidableEq

inductive Fields where
  | nil
  | cons (hd : Value) (tl : Fields)
deriving DecidableEq
end

mutual
inductive Shape where
  | u8
  | u16
  | u32
  | u64
  | str
  | bytes
  | struc (fields : Shapes)
deriving DecidableEq

inductive Shapes where
  | nil
  | cons (hd : Shape) (tl : Shapes)
deriving DecidableEq
end

mutual
/-- The bytes utils.Serialize writes for one field value. -/
def serV : Value → List Nat
  | .u8 n => leBytes 1 n
  | .u16 n => leBytes 2 n
  | .u32 n => leBytes 4 n
  | .u64 n => leBytes 8 n
  | .str s => leBytes 2 s.length ++ s
  | .bytes b => leBytes 2 b.length ++ b
  | .raw b => b
  | .struc fs => serL fs

/-- The bytes utils.Serialize writes for a run of fields, in declared
order. -/
def serL : Fields → List Nat
  | .nil => []
  | .cons v vs => serV v ++ serL vs
end

mutual
/-- Behavior of utils.Deserialize on one field of the given shape.  Faithful to
the Go source: every error returned by `binary.Read` is discarded, so a
truncated stream leaves the field at its zero value and the function
still succeeds. -/
def deserV : Shape → List Nat → Value × List Nat
  | .u8, s => let p := readLE 1 s; (.u8 p.1, p.2)
  | .u16, s => let p := readLE 2 s; (.u16 p.1, p.2)
  | .u32, s => let p := readLE 4 s; (.u32 p.1, p.2)
  | .u64, s => let p := readLE 8 s; (.u64 p.1, p.2)
  | .str, s =>
    let p := readLE 2 s
    if p.1 ≤ p.2.length then (.str (p.2.take p.1), p.2.drop p.1)
    else (.str (List.replicate p.1 0), [])
  | .bytes, s =>
    let p := readLE 2 s
    if p.1 ≤ p.2.length then (.bytes (p.2.take p.1), p.2.drop p.1)
    else (.bytes (List.replicate p.1 0), [])
  | .struc fs, s => let p := deserL fs s; (.struc p.1, p.2)

/-- Behavior of utils.Deserialize on a run of fields. -/
def deserL : Shapes → List Nat → Fields × List Nat
  | .nil, s => (.nil, s)
  | .cons sh shs, s =>
    let p := deserV sh s
    let q := deserL shs p.2
    (.cons p.1 q.1, q.2)
end

mutual
/-- The shape (Go type descriptor) of a value.  `Value.raw` stands for a
custom `Serializable` encoder whose decoding is type-specific; it is
excluded by `wfV` and mapped to an arbitrary shape here. -/
def shapeOfV : Value → Shape
  | .u8 _ => .u8
  | .u16 _ => .u16
  | .u32 _ => .u32
  | .u64 _ => .u64
  | .str _ => .str
  | .bytes _ => .bytes
  | .raw _ => .bytes
  | .struc fs => .struc (shapeOfL fs)

def shapeOfL : Fields → Shapes
  | .nil => .nil
  | .cons v vs => .cons (shapeOfV v) (shapeOfL vs)
end

mutual
/-- Well-formed wire values: integer fields within their Go width,
length-prefixed strings and byte slices shorter than `2 ^ 16` with
genuine bytes, and no custom encoders. -/
def wfV : Value → Bool
  | .u8 n => n < 256
  | .u16 n => n < 65536
  | .u32 n => n < 4294967296
  | .u64 n => n < 18446744073709551616
  | .str s => s.length < 65536 && s.all (· < 256)
  | .bytes b => b.length < 65536 && b.all (· < 256)
  | .raw _ => false
  | .struc fs => wfL fs

def wfL : Fields → Bool
  | .nil => true
  | .cons v vs => wfV v && wfL vs
end

theorem take_append_self (l rest : List Nat) : (l ++ rest).take l.length = l := by
  rw [List.take_append_of_le_length le_rfl, List.take_length]

theorem drop_append_self (l rest : List Nat) : (l ++ rest).drop l.length = rest := by
  rw [List.drop_append_of_le_length le_rfl, List.drop_length, List.nil_append]

mutual
theorem roundtripV (v : Value) (hv : wfV v = true) (rest : List Nat) :
    deserV (shapeOfV v) (serV v ++ rest) = (v, rest) := by
  cases v with
  | u8 n =>
    have hn : n < 256 := by simpa [wfV] using hv
    simp [serV, shapeOfV, deserV, readLE_leBytes 1 n rest (by norm_num; omega)]
  | u16 n =>
    have hn : n < 65536 := by simpa [wfV] using hv
    simp [serV, shapeOfV, deserV, readLE_leBytes 2 n rest (by norm_num; omega)]
  | u32 n =>
    have hn : n < 4294967296 := by simpa [wfV] using hv
    simp [serV, shapeOfV, deserV, readLE_leBytes 4 n rest (by norm_num; omega)]
  | u64 n =>
    have hn : n < 18446744073709551616 := by simpa [wfV] using hv
    simp [serV, shapeOfV, deserV, readLE_leBytes 8 n rest (by norm_num; omega)]
  | str s =>
    have hn : s.length < 65536 := by
      have := hv; simp [wfV, Bool.and_eq_true] at this; exact this.1
    simp only [serV, shapeOfV, deserV, List.append_assoc,
      readLE_leBytes 2 s.length (s ++ rest) (by norm_num; omega)]
    rw [if_pos (by simp)]
    simp [take_append_self, drop_append_self]
  | bytes b =>
    have hn : b.length < 65536 := by
      have := hv; simp [wfV, Bool.and_eq_true] at this; exact this.1
    simp only [serV, shapeOfV, deserV, List.append_assoc,
      readLE_leBytes 2 b.length (b ++ rest) (by norm_num; omega)]
    rw [if_pos (by simp)]
    simp [take_append_self, drop_append_self]
  | raw b => simp [wfV] at hv
  | struc fs =>
    have := roundtripL fs (by simpa [wfV] using hv) rest
    simp [serV, shapeOfV, deserV, this]

theorem roundtripL (fs : Fields) (hf : wfL fs = true) (rest : List Nat) :
    deserL (shapeOfL fs) (serL fs ++ rest) = (fs, rest) := by
  cases fs with
  | nil => simp [serL, shapeOfL, deserL]
  | cons v vs =>
    have hwf : wfV v = true ∧ wfL vs = true := by
      simpa [wfL, Bool.and_eq_true] using hf
    have h1 := roundtripV v hwf.1 (serL vs ++ rest)
    have h2 := roundtripL vs hwf.2 rest
    simp [serL, shapeOfL, deserL, List.append_assoc, h1, h2]
end

/-! ## The standalone byte-sequence codec (utils.SerializeBytes /
utils.DeserializeBytes) -/

/-- The errors a decode can produce.  `truncated` models the io errors
returned by a short `binary.Read`; `negativeLength` models the runtime
panic raised by `make([]byte, size)` when the length prefix, read into a
signed `int16`, came out negative. -/
inductive CodecErr where
  | truncated
  | negativeLength
deriving DecidableEq

/-- The function utils.SerializeBytes: a 2-byte little-endian length header
(`dataLen & 0xFF`, then `byte(dataLen >> 8)`) followed by the data. -/
def SerializeBytes (data : List Nat) : List Nat :=
  leBytes 2 data.length ++ data

/-- The function utils.DeserializeBytes: reads the length header into a signed
`int16`, allocates that many bytes and reads them fully.  A header with
its top bit set is a negative `int16`, on which `make([]byte, size)`
panics. -/
def DeserializeBytes (s : List Nat) : Except CodecErr (List Nat × List Nat) :=
  match s with
  | b0 :: b1 :: rest =>
    let raw := b0 % 256 + 256 * (b1 % 256)
    if raw < 32768 then
      if raw ≤ rest.length then .ok (rest.take raw, rest.drop raw)
      else .error .truncated
    else .error .negativeLength
  | _ => .error .truncated

/-- The function utils.Deserialize never reports failure: the reflection callback
discards every `binary.Read` error and the function unconditionally
returns `nil` (serialize.go line 260), even though all of its callers
check the returned error. -/
def Deserialize (sh : Shape) (s : List Nat) : Except CodecErr (Value × List Nat) :=
  .ok (deserV sh s)

/-- The function utils.Serialize on a whole value. -/
def Serialize (v : Value) : List Nat :=
  serV v

theorem DeserializeBytes_SerializeBytes (b : List Nat) (h : b.length < 32768) :
    DeserializeBytes (SerializeBytes b) = .ok (b, []) := by
  have hmod : b.length % 256 % 256 + 256 * (b.length / 256 % 256 % 256) = b.length := by
    omega
  simp only [SerializeBytes, leBytes, List.cons_append, List.nil_append, DeserializeBytes]
  rw [hmod, if_pos h, if_pos le_rfl]
  simp

/-! ## The ChangeKey operation (safebox/tx/txchangekey.go)

The crypto package (curve points, ECDSA) is outside the excerpted core;
parsed public keys are opaque and the crypto entry points appear as
parameters of the embedded functions. -/

/-- Modelled from the spec: a parsed elliptic-curve public key
(crypto.Public), kept opaque since the crypto package is out of scope. -/
def Public : Type := List Nat

instance : DecidableEq Public := by
  unfold Public; infer_instance

/-- accounter.Account (data model section of the spec, with the fields
used by the excerpted core). -/
structure Account where
  number : Nat
  publicKey : Public
  balance : Nat
  updatedIndex : Nat
  operations : Nat
deriving DecidableEq

/-- The ChangeKey operation struct (txchangekey.go lines 35-43). -/
structure ChangeKey where
  source : Nat
  operationId : Nat
  fee : Nat
  payload : List Nat
  publicKey : Public
  newPublickey : List Nat
  signature : List Nat
deriving DecidableEq

/-- changeKeyContext (txchangekey.go lines 45-48). -/
structure changeKeyContext where
  source : Account
  newPublic : Public
deriving DecidableEq

/-- The changeKeyToSign struct (txchangekey.go lines 50-57) as a wire
value.  Payload is wrapped in BytesWithoutLengthPrefix, whose custom
encoder writes the raw bytes with no prefix; Public is the plain
serialization of the source public key, produced inside the crypto
package and therefore modelled as the parameter serializedPlain;
NewPublic is a plain byte slice, which the codec writes with a u16
length prefix. -/
def changeKeyToSign (serializedPlain : Public → List Nat) (this : ChangeKey) : Value :=
  .struc (.cons (.u32 this.source)
    (.cons (.u32 this.operationId)
      (.cons (.u64 this.fee)
        (.cons (.raw this.payload)
          (.cons (.raw (serializedPlain this.publicKey))
            (.cons (.bytes this.newPublickey) .nil))))))

/-- ChangeKey.getBufferToSign (txchangekey.go lines 94-105). -/
def ChangeKey.getBufferToSign (serializedPlain : Public → List Nat)
    (this : ChangeKey) : List Nat :=
  Serialize (changeKeyToSign serializedPlain this)

/-- ChangeKey.Validate (txchangekey.go lines 63-78).  crypto.NewPublic
is outside the excerpted core and is modelled as the parameter
newPublic.  The source performs exactly three checks: account
existence, balance sufficiency and parseability of the new key; it
never verifies the signature. -/
def ChangeKey.Validate (newPublic : List Nat → Except String Public)
    (this : ChangeKey) (getAccount : Nat → Option Account) :
    Except String changeKeyContext :=
  match getAccount this.source with
  | none => .error "Source account not found"
  | some source =>
    if source.balance < this.fee then .error "Insufficient balance"
    else
      match newPublic this.newPublickey with
      | .error e => .error e
      | .ok pub => .ok { source := source, newPublic := pub }

/-- accounter.Micro, the state-delta unit, kept opaque. -/
def Micro : Type := Nat

/-- ChangeKey.Apply (txchangekey.go lines 80-87).  The delta builders
Account.KeyChange and Account.BalanceSub live in the accounter package
and are modelled as parameters; Apply itself has no failing path. -/
def ChangeKey.Apply (keyChange : Account → Public → Nat → List Micro)
    (balanceSub : Account → Nat → Nat → List Micro)
    (this : ChangeKey) (index : Nat) (context : changeKeyContext) :
    Except String (List (Nat × List Micro)) :=
  .ok [(context.source.number,
        keyChange context.source context.newPublic index ++
          balanceSub context.source this.fee index)]

/-! ## Block assembly (safebox package) -/

/-- A block operation as the safebox sees it: its fee and the bytes its
SerializeUnderlying method writes. -/
structure Tx where
  fee : Nat
  underlying : List Nat
deriving DecidableEq

/-- The loop body of GetOperationsHash.  The parameter sha models the
SHA-256 digest function: sha s is the 32-byte digest of s.  The source
computes h.Sum(hash[:]), which appends the digest of the bytes written
to h after the prefix hash[:], and hashes the concatenation again. -/
def getOperationsHashLoop (sha : List Nat → List Nat) :
    List Nat → List Tx → List Nat
  | hash, [] => hash
  | hash, it :: rest =>
    getOperationsHashLoop sha (sha (hash ++ sha it.underlying)) rest

/-- GetOperationsHash (safebox package, lines 105-113). -/
def GetOperationsHash (sha : List Nat → List Nat) (operations : List Tx) :
    List Nat :=
  getOperationsHashLoop sha (sha []) operations

/-- BlockMetadata (safebox package, lines 75-85). -/
structure BlockMetadata where
  index : Nat
  miner : List Nat
  timestamp : Nat
  target : Nat
  nonce : Nat
  payload : List Nat
  prevSafeBoxHash : List Nat
  operations : List Tx

/-- Block (safebox package, lines 87-97), restricted to the fields the
claims are about.  The Target and Hash fields depend on the common and
accounter packages and are not modelled. -/
structure Block where
  meta : BlockMetadata
  miner : Public
  operations : List Tx
  operationsHash : List Nat
  fee : Nat
  reward : Nat
  accounts : List Account

/-- NewBlock (safebox package, lines 115-154).  crypto.NewPublic and
getReward are outside the excerpted core and appear as parameters.  The
fee accumulator is a Go uint64, so each addition wraps modulo 2^64; the
source runs the fee loop before parsing the miner key, which does not
affect the result. -/
def NewBlock (newPublic : List Nat → Except String Public)
    (getReward : Nat → Nat) (sha : List Nat → List Nat)
    (meta : BlockMetadata) : Except String Block :=
  match newPublic meta.miner with
  | .error e => .error e
  | .ok miner =>
    .ok { meta := meta
          miner := miner
          operations := meta.operations
          operationsHash := GetOperationsHash sha meta.operations
          fee := meta.operations.foldl
            (fun acc it => (acc + it.fee) % 18446744073709551616) 0
          reward := getReward meta.index
          accounts := (List.range 5).map fun i =>
            { number := i + meta.index
              publicKey := miner
              balance := 0
              updatedIndex := meta.index
              operations := 0 } }

/-! ## The peer connection (network/pasl/connection.go) -/

/-- pascalConnectionState (connection.go lines 39-42). -/
structure pascalConnectionState where
  height : Nat
  prevSafeboxHash : List Nat
deriving DecidableEq

/-- Go copy(dst, src): overwrites the first min(len dst, len src)
entries of dst with the corresponding entries of src. -/
def goCopy (dst src : List Nat) : List Nat :=
  src.take dst.length ++ dst.drop src.length

/-- PascalConnection.SetState (connection.go lines 82-93): allocates a
fresh 32-byte buffer and copies the supplied hash into it. -/
def SetState (height : Nat) (prevSafeboxHash : List Nat) :
    pascalConnectionState :=
  { height := height
    prevSafeboxHash := goCopy (List.replicate 32 0) prevSafeboxHash }

/-- PascalConnection.GetState (connection.go lines 95-99). -/
def GetState (st : pascalConnectionState) : Nat × List Nat :=
  (st.height, st.prevSafeboxHash)

/-- Modelled from the spec: the packetHello message carries the peer
nonce, the pending-block header (of which the handler reads the index
and prev-safebox hash) and a peer list; its declaration is outside the
excerpted core.  Peer infos are opaque. -/
structure packetHello where
  nonce : List Nat
  blockIndex : Nat
  blockPrevSafeboxHash : List Nat
  peers : List Nat
deriving DecidableEq

/-- The observable effects of one onHelloCommon call: the error it
returns, the state recorded via SetState (none if SetState was never
reached) and the peer infos pushed to the peerUpdates channel. -/
structure HelloEffects where
  errorMsg : Option String
  newState : Option pascalConnectionState
  peerUpdates : List Nat
deriving DecidableEq

/-- PascalConnection.onHelloCommon (connection.go lines 145-166) on a
decoded hello packet: a nonce equal to ours returns the loopback error
before SetState runs and before any peer is processed. -/
def onHelloCommon (ownNonce : List Nat) (packet : packetHello) : HelloEffects :=
  if packet.nonce = ownNonce then
    { errorMsg := some "Loopback connection", newState := none, peerUpdates := [] }
  else
    { errorMsg := none
      newState := some (SetState packet.blockIndex packet.blockPrevSafeboxHash)
      peerUpdates := packet.peers }

/-- Modelled from the spec: defaults.NetworkBlocksPerRequest, default
100 (the defaults package is outside the excerpted core). -/
def NetworkBlocksPerRequest : Nat := 100

/-- The body of the getblocks response loop (connection.go lines
197-204): starting at index i, up to n iterations append the serialized
found blocks, stopping at the first index with no block.  Serialized
blocks are opaque; none stands for the zero-valued SerializedBlock. -/
def collectBlocks (getBlock : Nat → Option Nat) : Nat → Nat → List (Option Nat)
  | _, 0 => []
  | i, n + 1 =>
    match getBlock i with
    | some b => some b :: collectBlocks getBlock (i + 1) n
    | none => []

/-- PascalConnection.onGetBlocksRequest (connection.go lines 178-212)
on a decoded request: swap a reversed range, clamp its width to
NetworkBlocksPerRequest, pre-allocate a slice of total zero-valued
blocks (make with length total, not capacity), then append the blocks
found for index in [from, to] inclusive, breaking at the first gap. -/
def onGetBlocksRequest (getBlock : Nat → Option Nat)
    (fromIndex toIndex : Nat) : List (Option Nat) :=
  let f := if fromIndex > toIndex then toIndex else fromIndex
  let t := if fromIndex > toIndex then fromIndex else toIndex
  let total0 := t - f
  let total := if total0 > NetworkBlocksPerRequest then NetworkBlocksPerRequest
               else total0
  List.replicate total none ++ collectBlocks getBlock f (total + 1)

/-- eventNewBlock (the event pushed on the onNewBlock channel);
serialized blocks are opaque. -/
structure eventNewBlock where
  serializedBlock : Nat
  shouldBroadcast : Bool
deriving DecidableEq

/-- The observable effects of the StartBlocksDownloading response
callback: how many Done signals were sent, the NewBlock events emitted,
and the error returned. -/
structure DownloadOutcome where
  doneSignals : Nat
  events : List eventNewBlock
  errorMsg : Option String
deriving DecidableEq

/-- The onSuccess callback installed by StartBlocksDownloading
(connection.go lines 107-127).  The deferred send fires before every
return, so each path yields exactly one Done signal.  Decoding of
packetGetBlocksResponse is modelled from the spec as the parameter
decode, since the packet declaration is outside the excerpted core. -/
def onBlocksDownloadingResponse (decode : List Nat → Except String (List Nat))
    (response : Option (List Nat)) : DownloadOutcome :=
  match response with
  | none =>
    { doneSignals := 1, events := [], errorMsg := some "GetBlocks request failed" }
  | some payload =>
    match decode payload with
    | .error e => { doneSignals := 1, events := [], errorMsg := some e }
    | .ok blocks =>
      { doneSignals := 1
        events := blocks.map fun it =>
          { serializedBlock := it, shouldBroadcast := false }
        errorMsg := none }

/-! ## Claim C1: codec round trip -/

/-- A sample well-formed wire value exercising every shape. -/
def vEx : Value :=
  .struc (.cons (.u8 5)
    (.cons (.str [104, 105])
      (.cons (.bytes [255])
        (.cons (.u32 70000)
          (.cons (.u64 3)
            (.cons (.struc (.cons (.u16 300) .nil)) .nil))))))

/-- Claim C1, counterexample: a byte sequence of length 32768 (below
2^16, as the claim allows) does not survive the round trip, because
DeserializeBytes reads the length prefix into a signed int16 and the
resulting negative size makes the allocation panic. -/
theorem deserializeBytes_fails_at_length_32768 :
    (List.replicate 32768 (0 : Nat)).length < 65536 ∧
    DeserializeBytes (SerializeBytes (List.replicate 32768 (0 : Nat))) =
      .error .negativeLength := by
  constructor
  · rw [List.length_replicate]; norm_num
  · have h2 : leBytes 2 32768 = [0, 128] := rfl
    unfold SerializeBytes
    rw [List.length_replicate, h2]
    rw [show ([0, 128] ++ List.replicate 32768 (0 : Nat)) =
      0 :: 128 :: List.replicate 32768 (0 : Nat) from rfl]
    rw [show DeserializeBytes (0 :: 128 :: List.replicate 32768 (0 : Nat)) =
      (if (0 : Nat) % 256 + 256 * (128 % 256) < 32768 then
        if 0 % 256 + 256 * (128 % 256) ≤ (List.replicate 32768 (0 : Nat)).length then
          .ok ((List.replicate 32768 (0 : Nat)).take (0 % 256 + 256 * (128 % 256)),
               (List.replicate 32768 (0 : Nat)).drop (0 % 256 + 256 * (128 % 256)))
        else .error .truncated
      else .error .negativeLength) from rfl]
    norm_num

/-- Claim C1 (amended): deserializing the serialization of any
well-formed value of the specified wire shapes yields the value back
and consumes exactly its bytes; and the standalone byte-sequence codec
round-trips every byte sequence of length below 2^15 (not 2^16: the
signed int16 length read breaks round-tripping for lengths in
[2^15, 2^16)). -/
theorem claim_C1_codec_roundtrip :
    (∀ (v : Value), wfV v = true → ∀ (rest : List Nat),
      Deserialize (shapeOfV v) (Serialize v ++ rest) = .ok (v, rest)) ∧
    (∀ (b : List Nat), b.length < 32768 →
      DeserializeBytes (SerializeBytes b) = .ok (b, [])) :=
  ⟨fun v hv rest => by simp [Deserialize, Serialize, roundtripV v hv rest],
   fun b hb => DeserializeBytes_SerializeBytes b hb⟩

/-- Claim C1, witness: the round trip evaluated on a concrete value and
a concrete byte sequence. -/
theorem claim_C1_codec_roundtrip_witness :
    wfV vEx = true ∧
    Deserialize (shapeOfV vEx) (Serialize vEx ++ [9]) = .ok (vEx, [9]) ∧
    DeserializeBytes (SerializeBytes [1, 2, 3]) = .ok ([1, 2, 3], []) :=
  ⟨by decide, claim_C1_codec_roundtrip.1 vEx (by decide) [9],
   claim_C1_codec_roundtrip.2 [1, 2, 3] (by decide)⟩

/-! ## Claim C2: the ChangeKey to-be-signed buffer -/

/-- Claim C2: for every ChangeKey, getBufferToSign is exactly the
concatenation of source as little-endian u32, op id as u32, fee as u64,
the raw payload bytes with no prefix, the plain serialization of the
source public key, and the new public key bytes behind their u16
little-endian length prefix, in that order. -/
theorem claim_C2_changekey_buffer_to_sign :
    ∀ (serializedPlain : Public → List Nat) (ck : ChangeKey),
      ChangeKey.getBufferToSign serializedPlain ck =
        leBytes 4 ck.source ++ leBytes 4 ck.operationId ++ leBytes 8 ck.fee ++
          ck.payload ++ serializedPlain ck.publicKey ++
          leBytes 2 ck.newPublickey.length ++ ck.newPublickey := by
  intro sp ck
  simp [ChangeKey.getBufferToSign, changeKeyToSign, Serialize, serV, serL,
    List.append_assoc]

/-! ## Claim C3: the operations hash fold -/

theorem getOperationsHashLoop_eq_foldl (sha : List Nat → List Nat)
    (l : List Tx) : ∀ h, getOperationsHashLoop sha h l =
      l.foldl (fun acc it => sha (acc ++ sha it.underlying)) h := by
  induction l with
  | nil => intro h; rfl
  | cons x xs ih => intro h; simp [getOperationsHashLoop, List.foldl, ih]

/-- Claim C3: GetOperationsHash is the left fold that starts from the
digest of the empty string and, for each operation in list order,
rehashes the accumulator concatenated with the digest of that
operation's underlying encoding. -/
theorem claim_C3_operations_hash_fold :
    ∀ (sha : List Nat → List Nat) (operations : List Tx),
      GetOperationsHash sha operations =
        operations.foldl (fun acc it => sha (acc ++ sha it.underlying))
          (sha []) := by
  intro sha ops
  exact getOperationsHashLoop_eq_foldl sha ops (sha [])

/-! ## Claim C4: ChangeKey.Validate -/

/-- A sample ChangeKey operation for claim C4. -/
def ckEx : ChangeKey :=
  { source := 7
    operationId := 1
    fee := 1
    payload := [104, 105]
    publicKey := [4, 4]
    newPublickey := [2, 9]
    signature := [0] }

/-- A sample source account for claim C4. -/
def accEx : Account :=
  { number := 7, publicKey := [4, 4], balance := 100, updatedIndex := 0,
    operations := 0 }

/-- A signature verifier that rejects every signature.  Validate never
consults any verifier, so its outcome cannot depend on one. -/
def failVerify : List Nat → List Nat → Public → Bool :=
  fun _ _ _ => false

/-- Claim C4, counterexample: on a concrete operation whose signature
fails verification (under a verifier rejecting everything), Validate
still succeeds, because the source of Validate performs no signature
check at all. -/
theorem validate_ignores_signature :
    ChangeKey.Validate (fun b => .ok b) ckEx (fun _ => some accEx) =
      .ok { source := accEx, newPublic := [2, 9] } ∧
    failVerify (ChangeKey.getBufferToSign (fun p => p) ckEx) ckEx.signature
      ckEx.publicKey = false := by
  constructor
  · rfl
  · rfl

/-- Claim C4 (amended): Validate returns an error if and only if the
source account does not exist, its balance is below the fee, or the new
public key fails to parse; the signature is never checked by Validate.
When the three checks pass it returns a context with which Apply cannot
fail. -/
theorem claim_C4_validate_checks :
    ∀ (newPublic : List Nat → Except String Public) (ck : ChangeKey)
      (getAccount : Nat → Option Account),
      ((∃ c, ChangeKey.Validate newPublic ck getAccount = .ok c) ↔
        (∃ acc, getAccount ck.source = some acc ∧ ck.fee ≤ acc.balance ∧
          ∃ pub, newPublic ck.newPublickey = .ok pub)) ∧
      (∀ keyChange balanceSub index context,
        ∃ r, ChangeKey.Apply keyChange balanceSub ck index context = .ok r) := by
  intro np ck ga
  constructor
  · constructor
    · rintro ⟨c, hc⟩
      unfold ChangeKey.Validate at hc
      split at hc
      · exact absurd hc (by simp)
      · rename_i acc hga
        split at hc
        · exact absurd hc (by simp)
        · rename_i hb
          split at hc
          · exact absurd hc (by simp)
          · rename_i pub hnp
            exact ⟨acc, hga, by omega, pub, hnp⟩
    · rintro ⟨acc, hacc, hfee, pub, hpub⟩
      refine ⟨{ source := acc, newPublic := pub }, ?_⟩
      have hnb : ¬ acc.balance < ck.fee := by omega
      simp [ChangeKey.Validate, hacc, hnb, hpub]
  · intro kc bs idx ctx
    exact ⟨_, rfl⟩

/-! ## Claim C5: the getblocks request handler -/

theorem collectBlocks_eq (getBlock : Nat → Option Nat) :
    ∀ (n i : Nat), collectBlocks getBlock i n =
      ((List.range' i n).takeWhile (fun j => (getBlock j).isSome)).map
        getBlock := by
  intro n
  induction n with
  | zero => intro i; rfl
  | succ k ih =>
    intro i
    rw [List.range'_succ]
    cases hg : getBlock i with
    | some b => simp [collectBlocks, hg, ih]
    | none => simp [collectBlocks, hg]

/-- The clamped request width: the handler reduces to - from to at most
NetworkBlocksPerRequest. -/
def clampedWidth (fromIndex toIndex : Nat) : Nat :=
  min (max fromIndex toIndex - min fromIndex toIndex) NetworkBlocksPerRequest

/-- Claim C5 (amended): the handler clamps the requested width to at
most NetworkBlocksPerRequest, but the response is NOT at most that many
blocks: it consists of clampedWidth zero-valued placeholder blocks
(from the make call that sets a length instead of a capacity), followed
by the serialized blocks found at the (clampedWidth + 1) indices of the
inclusive loop, truncated at the first index with no block; in all at
most 2 * NetworkBlocksPerRequest + 1 entries. -/
theorem claim_C5_getblocks_response :
    ∀ (getBlock : Nat → Option Nat) (fromIndex toIndex : Nat),
      onGetBlocksRequest getBlock fromIndex toIndex =
        List.replicate (clampedWidth fromIndex toIndex) none ++
          ((List.range' (min fromIndex toIndex)
                (clampedWidth fromIndex toIndex + 1)).takeWhile
              (fun j => (getBlock j).isSome)).map getBlock ∧
      clampedWidth fromIndex toIndex ≤ NetworkBlocksPerRequest ∧
      (onGetBlocksRequest getBlock fromIndex toIndex).length ≤
        2 * NetworkBlocksPerRequest + 1 := by
  intro g fi ti
  have e1 : (if fi > ti then ti else fi) = min fi ti := by split <;> omega
  have e2 : (if fi > ti then fi else ti) = max fi ti := by split <;> omega
  have e3 : (if max fi ti - min fi ti > NetworkBlocksPerRequest then
        NetworkBlocksPerRequest else max fi ti - min fi ti) =
      clampedWidth fi ti := by
    unfold clampedWidth NetworkBlocksPerRequest
    split <;> omega
  have hmain : onGetBlocksRequest g fi ti =
      List.replicate (clampedWidth fi ti) none ++
        ((List.range' (min fi ti) (clampedWidth fi ti + 1)).takeWhile
            (fun j => (g j).isSome)).map g := by
    simp only [onGetBlocksRequest]
    rw [e1, e2, e3, collectBlocks_eq]
  have hclamp : clampedWidth fi ti ≤ NetworkBlocksPerRequest := by
    unfold clampedWidth NetworkBlocksPerRequest
    omega
  refine ⟨hmain, hclamp, ?_⟩
  rw [hmain, List.length_append, List.length_replicate, List.length_map]
  have htw : ((List.range' (min fi ti) (clampedWidth fi ti + 1)).takeWhile
      (fun j => (g j).isSome)).length ≤ clampedWidth fi ti + 1 := by
    have hs := (List.takeWhile_sublist
      (l := List.range' (min fi ti) (clampedWidth fi ti + 1))
      (fun j => (g j).isSome)).length_le
    rwa [List.length_range'] at hs
  unfold NetworkBlocksPerRequest at hclamp ⊢
  omega

/-- Claim C5, counterexample: with every block present, a request for
the range [0, 200] yields a response of 201 entries, although the claim
allows at most NetworkBlocksPerRequest = 100 serialized blocks: the
handler pre-allocates 100 zero-valued blocks and then appends 101 found
blocks. -/
theorem getblocks_response_exceeds_limit :
    NetworkBlocksPerRequest = 100 ∧
    (onGetBlocksRequest (fun i => some i) 0 200).length =
      2 * NetworkBlocksPerRequest + 1 := by
  constructor
  · rfl
  · set_option maxRecDepth 4000 in decide

/-! ## Claim C6: error reporting of Deserialize -/

/-- Claim C6, code bug: deserializing a struct of a u32 and a u64 field
from the empty stream does not produce a truncated error; the source
discards every binary.Read error and returns nil, leaving the fields at
their zero values. -/
theorem claim_C6_deserialize_swallows_truncation :
    Deserialize (.struc (.cons .u32 (.cons .u64 .nil))) [] =
      .ok (.struc (.cons (.u32 0) (.cons (.u64 0) .nil)), []) := rfl

/-! ## Claim C7: loopback rejection in the hello handler -/

/-- Claim C7: a hello whose nonce equals our own makes onHelloCommon
return the loopback error with no state recorded and no peer processed;
a hello with a different nonce raises no error. -/
theorem claim_C7_loopback_rejection :
    ∀ (ownNonce : List Nat) (packet : packetHello),
      (packet.nonce = ownNonce →
        onHelloCommon ownNonce packet =
          { errorMsg := some "Loopback connection", newState := none,
            peerUpdates := [] }) ∧
      (packet.nonce ≠ ownNonce →
        (onHelloCommon ownNonce packet).errorMsg = none) := by
  intro own p
  constructor
  · intro h
    simp [onHelloCommon, h]
  · intro h
    simp [onHelloCommon, h]

/-- Claim C7, witness: a loopback hello and a distinct-nonce hello
evaluated concretely. -/
theorem claim_C7_loopback_rejection_witness :
    onHelloCommon [1] ⟨[1], 5, [7], [3]⟩ =
      ⟨some "Loopback connection", none, []⟩ ∧
    (onHelloCommon [1] ⟨[2], 5, [7], [3]⟩).errorMsg = none :=
  ⟨(claim_C7_loopback_rejection [1] _).1 rfl,
   (claim_C7_loopback_rejection [1] _).2 (by decide)⟩

/-! ## Claim C8: the blocks downloading callback -/

/-- Claim C8: the StartBlocksDownloading response callback signals Done
exactly once on every path; every NewBlock event it emits carries
shouldBroadcast = false; on a decoded response it emits exactly one
event per block, in order; on an absent response (timeout) it emits no
event and returns an error. -/
theorem claim_C8_download_events :
    ∀ (decode : List Nat → Except String (List Nat))
      (response : Option (List Nat)),
      (onBlocksDownloadingResponse decode response).doneSignals = 1 ∧
      (∀ e ∈ (onBlocksDownloadingResponse decode response).events,
        e.shouldBroadcast = false) ∧
      (∀ payload blocks, response = some payload →
        decode payload = .ok blocks →
        (onBlocksDownloadingResponse decode response).events.map
            (fun e => e.serializedBlock) = blocks) ∧
      (response = none →
        (onBlocksDownloadingResponse decode response).events = [] ∧
        (onBlocksDownloadingResponse decode response).errorMsg.isSome =
          true) := by
  intro dec resp
  cases resp with
  | none =>
    refine ⟨rfl, ?_, ?_, ?_⟩ <;> simp [onBlocksDownloadingResponse]
  | some payload =>
    cases hd : dec payload with
    | error e =>
      refine ⟨?_, ?_, ?_, ?_⟩
      · simp [onBlocksDownloadingResponse, hd]
      · simp [onBlocksDownloadingResponse, hd]
      · intro p bs hp hbs
        have hpp : p = payload := by injection hp with h; exact h.symm
        subst hpp
        rw [hd] at hbs
        exact absurd hbs (by simp)
      · intro h
        exact absurd h (by simp)
    | ok blocks =>
      refine ⟨?_, ?_, ?_, ?_⟩
      · simp [onBlocksDownloadingResponse, hd]
      · intro ev hev
        simp only [onBlocksDownloadingResponse, hd, List.mem_map] at hev
        obtain ⟨b, _, rfl⟩ := hev
        rfl
      · intro p bs hp hbs
        have hpp : p = payload := by injection hp with h; exact h.symm
        subst hpp
        rw [hd] at hbs
        obtain rfl : blocks = bs := by injection hbs
        simp only [onBlocksDownloadingResponse, hd, List.map_map]
        exact List.map_id blocks
      · intro h
        exact absurd h (by simp)

/-- Claim C8, witness: a decoded two-block response evaluated
concretely. -/
theorem claim_C8_download_events_witness :
    (onBlocksDownloadingResponse (fun p => .ok p) (some [5, 6])).events.map
        (fun e => e.serializedBlock) = [5, 6] ∧
    (onBlocksDownloadingResponse (fun p => .ok p)
        (some [5, 6])).doneSignals = 1 :=
  ⟨(claim_C8_download_events (fun p => .ok p) (some [5, 6])).2.2.1
      [5, 6] [5, 6] rfl rfl,
   (claim_C8_download_events (fun p => .ok p) (some [5, 6])).1⟩

/-! ## Claim C9: the block fee field -/

theorem foldl_wrap_add (l : List Tx) : ∀ a : Nat,
    l.foldl (fun acc it => (acc + it.fee) % 18446744073709551616)
        (a % 18446744073709551616) =
      (a + (l.map Tx.fee).sum) % 18446744073709551616 := by
  induction l with
  | nil => intro a; simp
  | cons x xs ih =>
    intro a
    simp only [List.foldl_cons, List.map_cons, List.sum_cons]
    rw [Nat.mod_add_mod, ih (a + x.fee), Nat.add_assoc]

/-- Claim C9: a block built by NewBlock carries as its fee the sum of
the fees of its operations (computed in Go uint64 arithmetic, hence the
representability hypothesis), and 0 when there are no operations. -/
theorem claim_C9_block_fee_sum :
    ∀ (newPublic : List Nat → Except String Public)
      (getReward : Nat → Nat) (sha : List Nat → List Nat)
      (meta : BlockMetadata) (b : Block),
      (meta.operations.map Tx.fee).sum < 18446744073709551616 →
      NewBlock newPublic getReward sha meta = .ok b →
      b.fee = (meta.operations.map Tx.fee).sum ∧
      (meta.operations = [] → b.fee = 0) := by
  intro np gr sha meta b hsum hok
  unfold NewBlock at hok
  split at hok
  · exact absurd hok (by simp)
  · rename_i miner hnp
    obtain rfl : b = _ := by injection hok with h; exact h.symm
    constructor
    · show meta.operations.foldl
        (fun acc it => (acc + it.fee) % 18446744073709551616) 0 =
          (meta.operations.map Tx.fee).sum
      have h := foldl_wrap_add meta.operations 0
      norm_num at h
      rw [h, Nat.mod_eq_of_lt hsum]
    · intro hops
      show meta.operations.foldl
        (fun acc it => (acc + it.fee) % 18446744073709551616) 0 = 0
      rw [hops]
      rfl

/-- Sample block metadata with two operations for claim C9. -/
def metaEx : BlockMetadata :=
  { index := 1, miner := [4, 4], timestamp := 0, target := 0, nonce := 0,
    payload := [], prevSafeBoxHash := [], operations := [⟨3, [1]⟩, ⟨4, [2]⟩] }

/-- The block NewBlock builds from metaEx under concrete collaborators. -/
def blockEx : Block :=
  { meta := metaEx
    miner := [4, 4]
    operations := metaEx.operations
    operationsHash := GetOperationsHash (fun s => s) metaEx.operations
    fee := 7
    reward := 50
    accounts := (List.range 5).map fun i =>
      { number := i + metaEx.index, publicKey := [4, 4], balance := 0,
        updatedIndex := metaEx.index, operations := 0 } }

/-- Claim C9, witness: the block built from two operations with fees 3
and 4 carries fee 7. -/
theorem claim_C9_block_fee_sum_witness :
    blockEx.fee = (metaEx.operations.map Tx.fee).sum :=
  (claim_C9_block_fee_sum (fun k => .ok k) (fun _ => 50) (fun s => s)
    metaEx blockEx (by decide) (by rfl)).1

/-! ## Claim C10: SetState and GetState -/

/-- Claim C10: after SetState, the stored state holds the given height
and a 32-byte hash formed from the first min(32, length) bytes of the
input padded with zeros, so GetState always returns a 32-byte hash. -/
theorem claim_C10_setstate_hash :
    ∀ (height : Nat) (hash : List Nat),
      GetState (SetState height hash) =
        (height, hash.take 32 ++ List.replicate (32 - hash.length) 0) ∧
      (SetState height hash).prevSafeboxHash.length = 32 := by
  intro h hash
  constructor
  · unfold GetState SetState goCopy
    rw [List.length_replicate, List.drop_replicate]
  · unfold SetState goCopy
    rw [List.length_append, List.length_take, List.length_replicate,
      List.length_drop, List.length_replicate]
    omega

/-- Claim C4, witness: the amended theorem evaluated on a concrete
operation, account table and key parser. -/
theorem claim_C4_validate_checks_witness :
    (∃ c, ChangeKey.Validate (fun b => .ok b) ckEx (fun _ => some accEx) =
      .ok c) ∧
    (∃ r, ChangeKey.Apply (fun _ _ _ => []) (fun _ _ _ => []) ckEx 1
      { source := accEx, newPublic := [2, 9] } = .ok r) :=
  ⟨(claim_C4_validate_checks (fun b => .ok b) ckEx (fun _ => some accEx)).1.mpr
      ⟨accEx, rfl, by decide, [2, 9], rfl⟩,
   (claim_C4_validate_checks (fun b => .ok b) ckEx (fun _ => some accEx)).2
      (fun _ _ _ => []) (fun _ _ _ => []) 1 { source := accEx, newPublic := [2, 9] }⟩

end Pasl
